import Mathlib

/-
  Verification of the wedevctl core against its specification.

  The Go sources are shallowly embedded:
  * IPv4 addresses are modelled by their numeric value in [0, 2^32); for
    in-range addresses the Go code's string keys (`ip.String()`) are in
    bijection with these values, so the `map[string]bool` of allocated IPs
    becomes a list of Nat treated as a key set.
  * `net.ParseCIDR` is Go standard library (an external collaborator); it is
    modelled by a `parse : String → CIDRInput` parameter producing exactly the
    data the repository's code reads off the parse result: whether parsing
    failed, whether the block is IPv4 (`ipnet.IP.To4() != nil`), the masked
    network address (`ipnet.IP`) as a number, and the prefix length
    (`ipnet.Mask.Size()`).  `ParseCIDR` guarantees the network address is
    masked, i.e. `base + 2^(32-ones) ≤ 2^32`, and `ones ≤ 32`; theorems take
    these as hypotheses.
  * BoltDB buckets become association lists with get/put/delete; `uuid.New()`
    and WireGuard key generation are external capabilities, passed as
    arguments.
-/

namespace Wedevctl

/-- Parse result of `net.ParseCIDR` as consumed by `util.NewIPPool`. -/
inductive CIDRInput where
  | malformed
  | parsed (isV4 : Bool) (base : Nat) (ones : Nat)
deriving Repr, DecidableEq

/-- util/ippool.go `IPPool`.  `lastUsable` is computed but never read by any
operation; `networkCIDR` is the raw CIDR string, only copied into snapshots. -/
structure IPPool where
  networkCIDR : String
  serverIP : Nat
  allocated : List Nat
  recycled : List Nat
  nextIndex : Nat
  firstUsable : Nat
  lastUsable : Nat
  totalUsable : Nat
deriving Repr, DecidableEq

/-- util/ippool.go `increment`: adds one to an IPv4 address with byte carry,
i.e. numerically +1 modulo 2^32. -/
def increment (ip : Nat) : Nat := (ip + 1) % 2 ^ 32

/-- Go map-key insertion `m[ip] = true` on the key set. -/
def mapInsert (l : List Nat) (ip : Nat) : List Nat :=
  if ip ∈ l then l else ip :: l

/-- util/ippool.go `NewIPPool`. -/
def NewIPPool (parse : String → CIDRInput) (networkCIDR : String) :
    Except String IPPool :=
  match parse networkCIDR with
  | .malformed => .error "invalid CIDR"
  | .parsed isV4 base ones =>
    if !isV4 then .error "only IPv4 subnets are supported"
    else
      let totalIPsInt := 2 ^ (32 - ones)
      if totalIPsInt > 2 then
        let firstUsable := increment base
        let lastUsable := increment^[totalIPsInt - 1] base
        .ok { networkCIDR := networkCIDR
              serverIP := firstUsable
              allocated := []
              recycled := []
              nextIndex := 1
              firstUsable := firstUsable
              lastUsable := lastUsable
              totalUsable := totalIPsInt - 2 }
      else .error "network must have at least 3 usable IPs"

/-- util/ippool.go `GetServerIP`. -/
def GetServerIP (p : IPPool) : Nat := p.serverIP

/-- util/ippool.go `AllocateNodeIP`. -/
def AllocateNodeIP (p : IPPool) : Except String (Nat × IPPool) :=
  match p.recycled with
  | ip :: rest =>
      .ok (ip, { p with recycled := rest, allocated := mapInsert p.allocated ip })
  | [] =>
      if p.nextIndex ≥ p.totalUsable then
        .error ("no available IPs in pool (total usable: " ++
          toString p.totalUsable ++ ", allocated: " ++
          toString p.allocated.length ++ ")")
      else
        let ip := increment^[p.nextIndex] p.firstUsable
        .ok (ip, { p with nextIndex := p.nextIndex + 1,
                          allocated := mapInsert p.allocated ip })

/-- util/ippool.go `MarkIPAllocated`.  The Go guard `ip == ""` has no
counterpart for numeric addresses. -/
def MarkIPAllocated (p : IPPool) (ip : Nat) : Except String IPPool :=
  if ip ∈ p.allocated then .error ("IP " ++ toString ip ++ " is already allocated")
  else .ok { p with allocated := mapInsert p.allocated ip }

/-- The index-search loop inside util/ippool.go `SyncNextIndex`, written
with the remaining iteration budget `fuel = total - index` as the
structural recursion measure.  The Go loop
`for current != target && index < total` exits returning `index` either
when the target is found or when `index` reaches `total`. -/
def ipIndexGo (target : Nat) : Nat → Nat → Nat → Nat
  | 0, _, index => index
  | fuel + 1, current, index =>
    if current = target then index
    else ipIndexGo target fuel (increment current) (index + 1)

/-- The index search of util/ippool.go `SyncNextIndex`: at most
`total - index` steps remain before the loop guard `index < total` fails. -/
def ipIndexLoop (target total : Nat) (current index : Nat) : Nat :=
  ipIndexGo target (total - index) current index

/-- util/ippool.go `SyncNextIndex`: sets `nextIndex` one past the highest
index among allocated addresses (server IP skipped). -/
def SyncNextIndex (p : IPPool) : IPPool :=
  let maxIndex := p.allocated.foldl
    (fun maxIndex allocatedIP =>
      if allocatedIP = p.serverIP then maxIndex
      else
        let index := ipIndexLoop allocatedIP p.totalUsable p.firstUsable 0
        if index > maxIndex then index else maxIndex)
    0
  { p with nextIndex := maxIndex + 1 }

/-- util/ippool.go `ReleaseNodeIP`. -/
def ReleaseNodeIP (p : IPPool) (ip : Nat) : Except String IPPool :=
  if ip = p.serverIP then .error "cannot release server IP"
  else if ip ∉ p.allocated then
    .error ("IP " ++ toString ip ++ " is not allocated")
  else
    .ok { p with allocated := p.allocated.filter (fun x => x ≠ ip),
                 recycled := p.recycled ++ [ip] }

/-- One user-visible pool operation. -/
inductive PoolOp where
  | alloc
  | release (ip : Nat)
  | mark (ip : Nat)
  | sync
deriving Repr, DecidableEq

/-- Apply one operation; a failed operation leaves the pool unchanged
(errors propagate to the caller, the pool state is not mutated before the
guard fires in the Go code). -/
def applyOp (p : IPPool) : PoolOp → IPPool
  | .alloc => match AllocateNodeIP p with
    | .ok (_, p') => p'
    | .error _ => p
  | .release ip => match ReleaseNodeIP p ip with
    | .ok p' => p'
    | .error _ => p
  | .mark ip => match MarkIPAllocated p ip with
    | .ok p' => p'
    | .error _ => p
  | .sync => SyncNextIndex p

/-- Apply a sequence of operations left to right. -/
def applyOps (p : IPPool) (ops : List PoolOp) : IPPool := ops.foldl applyOp p

/-- The operations the allocate/release API exposes (claim C4 quantifies
over sequences of these). -/
def PoolOp.isAllocOrRelease : PoolOp → Prop
  | .alloc => True
  | .release _ => True
  | .mark _ => False
  | .sync => False

/-- Marking a list of addresses one by one, tolerating failures, as the
Topology Manager's reconstruction loop does. -/
def markAll (p : IPPool) (l : List Nat) : IPPool :=
  l.foldl (fun p ip => match MarkIPAllocated p ip with
    | .ok p' => p'
    | .error _ => p) p

/-- Repeated allocation, stopping at the first failure. -/
def allocateN (p : IPPool) : Nat → Except String IPPool
  | 0 => .ok p
  | n + 1 => match AllocateNodeIP p with
    | .ok (_, p') => allocateN p' n
    | .error e => .error e

def isOkE {α : Type} (e : Except String α) : Bool :=
  match e with
  | .ok _ => true
  | .error _ => false

instance {ε α : Type} [DecidableEq ε] [DecidableEq α] :
    DecidableEq (Except ε α)
  | .ok x, .ok y => decidable_of_iff (x = y) (by simp)
  | .ok _, .error _ => isFalse (fun hc => Except.noConfusion hc)
  | .error _, .ok _ => isFalse (fun hc => Except.noConfusion hc)
  | .error e, .error f => decidable_of_iff (e = f) (by simp)

/-- Rejection predicate following the amended spec wording: construction
fails exactly on malformed input, non-IPv4 blocks, and blocks with at most
2 total addresses (prefixes /31 and /32). -/
def specConstructionRejects (c : CIDRInput) : Bool :=
  match c with
  | .malformed => true
  | .parsed isV4 _ ones => !isV4 || decide (2 ^ (32 - ones) ≤ 2)

/-! ### Concrete pool states used as witnesses

`167772160` is `10.0.0.0`; its /29 block has 8 addresses (6 usable, server
`10.0.0.1 = 167772161`), its /24 block has 256 addresses (254 usable). -/

/-- The fresh pool for `10.0.0.0/29`. -/
def pool29 : IPPool :=
  ⟨"10.0.0.0/29", 167772161, [], [], 1, 167772161, 167772167, 6⟩

/-- `pool29` after one allocation (`10.0.0.2 = 167772162`). -/
def pool29a1 : IPPool :=
  ⟨"10.0.0.0/29", 167772161, [167772162], [], 2, 167772161, 167772167, 6⟩

/-- `pool29` after two allocations. -/
def pool29a2 : IPPool :=
  ⟨"10.0.0.0/29", 167772161, [167772163, 167772162], [], 3, 167772161,
    167772167, 6⟩

/-- `pool29a1` after releasing `167772162`. -/
def pool29r : IPPool :=
  ⟨"10.0.0.0/29", 167772161, [], [167772162], 2, 167772161, 167772167, 6⟩

/-- The pool reconstructed by marking `167772163` and `167772162` on a
fresh `10.0.0.0/29` pool and resyncing the cursor. -/
def pool29m : IPPool :=
  ⟨"10.0.0.0/29", 167772161, [167772162, 167772163], [], 3, 167772161,
    167772167, 6⟩

/-- `pool29m` after one allocation (`167772164`). -/
def pool29m1 : IPPool :=
  ⟨"10.0.0.0/29", 167772161, [167772164, 167772162, 167772163], [], 4,
    167772161, 167772167, 6⟩

/-- The fresh pool for `10.0.0.0/24`. -/
def pool24 : IPPool :=
  ⟨"10.0.0.0/24", 167772161, [], [], 1, 167772161, 167772415, 254⟩

/-! ### Entity records (storage.go)

Timestamps are never read by any operation modelled here and are omitted.
Assigned addresses (`VirtualIP`) are carried as their numeric value, like
all IPv4 addresses in this embedding; their textual rendering is injective
either way. -/

/-- storage.go `VirtualNetwork`. -/
structure VirtualNetwork where
  id : String
  name : String
  cidr : String
deriving Repr, DecidableEq

/-- storage.go `Server`. -/
structure Server where
  id : String
  networkID : String
  name : String
  publicAddress : String
  port : Nat
  virtualIP : Nat
  privateKey : String
  publicKey : String
deriving Repr, DecidableEq

/-- storage.go `NodeType` values. -/
def NodeTypePeer : String := "peer"

def NodeTypeRoute : String := "route"

/-- storage.go `Node`.  `type` is the NodeType string; the Go zero value
`""` is representable, as in the source. -/
structure Node where
  id : String
  networkID : String
  name : String
  publicAddress : String
  port : Nat
  virtualIP : Nat
  type : String
  privateKey : String
  publicKey : String
deriving Repr, DecidableEq

/-! ### Config generation (claim C9) -/

/-- util `FormatEndpoint`. -/
def FormatEndpoint (address : String) (port : Nat) : String :=
  address ++ ":" ++ toString port

/-- The condition under which the hub's entry for a node carries an
`Endpoint` line (generateServerConfig loop body). -/
def serverBlockHasEndpoint (node : Node) : Bool :=
  node.type = NodeTypePeer && node.publicAddress ≠ ""

/-- The `[Peer]` block the hub (server) config emits for one node. -/
def serverPeerBlock (node : Node) : String :=
  "\n[Peer]\n" ++
  "PublicKey = " ++ node.publicKey ++ "\n" ++
  "AllowedIPs = " ++ toString node.virtualIP ++ "/32\n" ++
  (if serverBlockHasEndpoint node then
    "Endpoint = " ++ FormatEndpoint node.publicAddress node.port ++ "\n"
  else "")

/-- The identity section of the hub config, with the forwarding
directives. -/
def serverConfigHeader (server : Server) : String :=
  "[Interface]\n" ++
  "PrivateKey = " ++ server.privateKey ++ "\n" ++
  "Address = " ++ toString server.virtualIP ++ "/32\n" ++
  "ListenPort = " ++ toString server.port ++ "\n" ++
  "PostUp = sysctl -w net.ipv4.ip_forward=1\n" ++
  "PostDown = sysctl -w net.ipv4.ip_forward=0\n"

/-- wedev `generateServerConfig`: identity section, then one `[Peer]`
block per node, in node-list order. -/
def generateServerConfig (server : Server) (nodes : List Node) : String :=
  serverConfigHeader server ++ String.join (nodes.map serverPeerBlock)

/-- The `[Peer]` block a node config emits for another node. -/
def nodePeerBlock (otherNode : Node) : String :=
  "\n[Peer]\n" ++
  "PublicKey = " ++ otherNode.publicKey ++ "\n" ++
  "AllowedIPs = " ++ toString otherNode.virtualIP ++ "/32\n" ++
  (if otherNode.publicAddress ≠ "" then
    "Endpoint = " ++ FormatEndpoint otherNode.publicAddress otherNode.port ++ "\n"
  else "")

/-- The nodes for which wedev `generateNodeConfig` emits a `[Peer]` block,
in emission order: the peer-type if-block (every *other* peer-type node)
followed by the route-type if-block (every peer-type node); other type
values emit no blocks. -/
def nodeConfigPeerSources (node : Node) (allNodes : List Node) : List Node :=
  (if node.type = NodeTypePeer then
    allNodes.filter (fun o => o.id ≠ node.id ∧ o.type = NodeTypePeer)
  else []) ++
  (if node.type = NodeTypeRoute then
    allNodes.filter (fun o => o.type = NodeTypePeer)
  else [])

/-- The identity section plus the always-present hub `[Peer]` entry of a
node config (endpoint line present whenever the hub's public address is
non-empty). -/
def nodeConfigHeader (network : VirtualNetwork) (server : Server)
    (node : Node) : String :=
  "[Interface]\n" ++
  "PrivateKey = " ++ node.privateKey ++ "\n" ++
  "Address = " ++ toString node.virtualIP ++ "/32\n" ++
  "ListenPort = " ++ toString node.port ++ "\n" ++
  "\n[Peer]\n" ++
  "PublicKey = " ++ server.publicKey ++ "\n" ++
  "AllowedIPs = " ++ network.cidr ++ "\n" ++
  (if server.publicAddress ≠ "" then
    "Endpoint = " ++ FormatEndpoint server.publicAddress server.port ++ "\n"
  else "")

/-- wedev `generateNodeConfig`. -/
def generateNodeConfig (network : VirtualNetwork) (server : Server)
    (node : Node) (allNodes : List Node) : String :=
  nodeConfigHeader network server node ++
  String.join ((nodeConfigPeerSources node allNodes).map nodePeerBlock)

/-! ### Example topology from the specification (hub, P1, P2, R1, R2) -/

def exNet : VirtualNetwork := ⟨"N", "testnet", "10.0.10.0/24"⟩

def exServer : Server :=
  ⟨"S", "N", "s1", "vpn.example.com", 51820, 167774721, "sPriv", "sPub"⟩

def exP1 : Node :=
  ⟨"p1", "N", "peer1", "peer1.pub", 51821, 167774722, "peer", "p1Priv", "p1Pub"⟩

def exP2 : Node :=
  ⟨"p2", "N", "peer2", "peer2.pub", 51822, 167774723, "peer", "p2Priv", "p2Pub"⟩

def exR1 : Node :=
  ⟨"r1", "N", "route1", "", 51820, 167774724, "route", "r1Priv", "r1Pub"⟩

def exR2 : Node :=
  ⟨"r2", "N", "route2", "", 51820, 167774725, "route", "r2Priv", "r2Pub"⟩

def exNodes : List Node := [exP1, exP2, exR1, exR2]

/-! ### Config versioning (claim C10)

The `Configs` payload (name-to-text map) and timestamps are carried by the
Go record but never read by the versioning decisions modelled here; the
current state's generated hash (`GenerateConfigs`, deterministic in the
entity state) enters as the `currentHash` argument. -/

/-- storage.go `ConfigVersion` (decision-relevant fields). -/
structure ConfigVersionRec where
  id : String
  networkID : String
  version : Nat
  contentHash : String
deriving Repr, DecidableEq

/-- The fold body of storage.go `SaveConfigVersion`'s version scan:
`if c.NetworkID == networkID && c.Version >= nextVer, nextVer = c.Version+1`. -/
def nextVerFoldFn (networkID : String) (nextVer : Nat)
    (c : ConfigVersionRec) : Nat :=
  if c.networkID = networkID ∧ c.version ≥ nextVer then c.version + 1
  else nextVer

/-- The fold body of storage.go `GetLatestConfigVersion`'s scan. -/
def latestFoldFn (networkID : String) (latest : Option ConfigVersionRec)
    (c : ConfigVersionRec) : Option ConfigVersionRec :=
  if c.networkID = networkID then
    match latest with
    | none => some c
    | some l => if c.version > l.version then some c else some l
  else latest

/-- storage.go `SaveConfigVersion`: scans the configs bucket for the
network's maximum version, then stores a new record under a fresh UUID
key (`newID`); the bucket gains exactly that record. -/
def storageSaveConfigVersion (bucket : List ConfigVersionRec)
    (networkID contentHash newID : String) :
    ConfigVersionRec × List ConfigVersionRec :=
  let nextVer := bucket.foldl (nextVerFoldFn networkID) 1
  let config : ConfigVersionRec := ⟨newID, networkID, nextVer, contentHash⟩
  (config, bucket ++ [config])

/-- storage.go `GetLatestConfigVersion`. -/
def GetLatestConfigVersion (bucket : List ConfigVersionRec)
    (networkID : String) : Except String ConfigVersionRec :=
  match bucket.foldl (latestFoldFn networkID) none with
  | some l => .ok l
  | none => .error ("no config version found for network " ++ networkID)

/-- wedev (generator) `SaveConfigVersion`: if the latest stored hash
equals the current hash, returns it unchanged (`false`); otherwise appends
a new version through the storage layer (`true`). -/
def SaveConfigVersion (bucket : List ConfigVersionRec)
    (networkID currentHash newID : String) :
    ConfigVersionRec × Bool × List ConfigVersionRec :=
  match GetLatestConfigVersion bucket networkID with
  | .ok latest =>
    if latest.contentHash = currentHash then (latest, false, bucket)
    else
      let r := storageSaveConfigVersion bucket networkID currentHash newID
      (r.1, true, r.2)
  | .error _ =>
    let r := storageSaveConfigVersion bucket networkID currentHash newID
    (r.1, true, r.2)

/-! ### BoltDB bucket model (claims C1 and C2) -/

/-- A bucket is an association list; `Get` finds the value stored at a
key. -/
def bucketGet {α : Type} (b : List (String × α)) (k : String) : Option α :=
  match b.find? (fun kv => kv.1 = k) with
  | some kv => some kv.2
  | none => none

/-- `Put` inserts or replaces. -/
def bucketPut {α : Type} (b : List (String × α)) (k : String) (v : α) :
    List (String × α) :=
  if b.any (fun kv => kv.1 = k) then
    b.map (fun kv => if kv.1 = k then (k, v) else kv)
  else b ++ [(k, v)]

/-- `Delete` removes the key when present; deleting an absent key is not
an error (as in bbolt). -/
def bucketDelete {α : Type} (b : List (String × α)) (k : String) :
    List (String × α) :=
  b.filter (fun kv => kv.1 ≠ k)

/-! ### Server (hub) storage operations (claim C1) -/

/-- The slice of the storage state the server operations touch: the key
set of the networks primary bucket, the servers primary bucket, and the
servers-by-name index bucket. -/
structure ServerStore where
  networks : List String
  servers : List (String × Server)
  serversByName : List (String × String)
deriving Repr, DecidableEq

/-- storage.go `CreateServer`; `newID` stands for `uuid.New().String()`.
The name index entry is written under the composite key
`networkID ++ ":" ++ name`. -/
def CreateServer (st : ServerStore) (networkID name publicAddress : String)
    (port : Nat) (virtualIP : Nat) (privateKey publicKey newID : String) :
    Except String (Server × ServerStore) :=
  if st.networks.contains networkID = false then
    .error ("network " ++ networkID ++ " not found")
  else if st.servers.any (fun kv => kv.2.networkID = networkID) then
    .error ("server already exists for network " ++ networkID)
  else
    let nameKey := networkID ++ ":" ++ name
    if (bucketGet st.serversByName nameKey).isSome then
      .error ("server name " ++ name ++ " already exists")
    else
      let server : Server := ⟨newID, networkID, name, publicAddress, port,
        virtualIP, privateKey, publicKey⟩
      .ok (server,
        { st with servers := bucketPut st.servers server.id server,
                  serversByName := bucketPut st.serversByName nameKey server.id })

/-- storage.go `DeleteServer`: scans the servers bucket for the network's
server (the scan keeps the last match; at most one exists), deletes the
primary record under the server id, and deletes the name-index entry under
the key `serverName` — the bare name, not the `networkID:name` composite
key that `CreateServer` wrote. -/
def DeleteServer (st : ServerStore) (networkID : String) :
    Except String ServerStore :=
  match st.servers.foldl (fun acc kv =>
      if kv.2.networkID = networkID then some (kv.1, kv.2.name) else acc)
      none with
  | none => .error "server not found for network"
  | some sn =>
    .ok { st with servers := bucketDelete st.servers sn.1,
                  serversByName := bucketDelete st.serversByName sn.2 }

/-- Empty store with one network `N1` (claim C1's run). -/
def c1Store0 : ServerStore := ⟨["N1"], [], []⟩

def c1Srv : Server :=
  ⟨"ID1", "N1", "s1", "pub.example.com", 51820, 167772161, "priv", "pubk"⟩

def c1Store1 : ServerStore :=
  ⟨["N1"], [("ID1", c1Srv)], [("N1:s1", "ID1")]⟩

def c1Store2 : ServerStore := ⟨["N1"], [], [("N1:s1", "ID1")]⟩

/-! ### The Topology Manager's CreateNode (claim C2) -/

/-- util `IPPoolState` (persisted snapshot). -/
structure IPPoolState where
  networkCIDR : String
  serverIP : Nat
  allocated : List Nat
  recycled : List Nat
  nextIndex : Nat
deriving Repr, DecidableEq

/-- util `GetState`: snapshot of a pool, allocated set minus the server
IP. -/
def GetState (p : IPPool) : IPPoolState :=
  ⟨p.networkCIDR, p.serverIP,
    p.allocated.filter (fun ip => ip ≠ p.serverIP),
    p.recycled, p.nextIndex⟩

/-- util `RestoreIPPool`: rebuild the pool for the snapshot's CIDR, mark
the server IP and every snapshotted address allocated, restore the recycle
queue and the cursor. -/
def RestoreIPPool (parse : String → CIDRInput) (state : IPPoolState) :
    Except String IPPool :=
  match NewIPPool parse state.networkCIDR with
  | .error e => .error e
  | .ok pool =>
    .ok { pool with
          allocated := state.allocated.foldl (fun l ip => mapInsert l ip)
            (mapInsert pool.allocated state.serverIP),
          recycled := state.recycled,
          nextIndex := state.nextIndex }

/-- The storage state as the Topology Manager sees it. -/
structure Storage where
  networks : List (String × VirtualNetwork)
  networksByName : List (String × String)
  servers : List (String × Server)
  nodes : List (String × Node)
  nodesByName : List (String × String)
  ipPools : List (String × IPPoolState)
deriving Repr, DecidableEq

/-- storage.go `GetNetworkByName`: name index, then primary record. -/
def GetNetworkByName (st : Storage) (name : String) :
    Except String VirtualNetwork :=
  match bucketGet st.networksByName name with
  | none => .error ("network " ++ name ++ " not found")
  | some id =>
    match bucketGet st.networks id with
    | none => .error "network data not found"
    | some network => .ok network

/-- storage.go `GetServerByNetworkID` (bucket scan, last match kept; at
most one exists). -/
def GetServerByNetworkID (st : Storage) (networkID : String) :
    Except String Server :=
  match st.servers.foldl (fun acc kv =>
      if kv.2.networkID = networkID then some kv.2 else acc) none with
  | some server => .ok server
  | none => .error ("no server found for network " ++ networkID)

/-- storage.go `ListNodesByNetworkID`. -/
def ListNodesByNetworkID (st : Storage) (networkID : String) : List Node :=
  (st.nodes.map (fun kv => kv.2)).filter (fun n => n.networkID = networkID)

/-- storage.go `GetIPPoolState`. -/
def GetIPPoolState (st : Storage) (networkID : String) :
    Except String IPPoolState :=
  match bucketGet st.ipPools networkID with
  | none => .error ("IP pool state not found for network " ++ networkID)
  | some state => .ok state

/-- storage.go `SaveIPPoolState` (keyed overwrite). -/
def SaveIPPoolState (st : Storage) (networkID : String)
    (state : IPPoolState) : Storage :=
  { st with ipPools := bucketPut st.ipPools networkID state }

/-- storage.go `CreateNode`: network existence check, scoped name
uniqueness check, then primary record and composite name-index entry. -/
def StorageCreateNode (st : Storage) (networkID name publicAddress : String)
    (port : Nat) (virtualIP : Nat) (nodeType : String)
    (privateKey publicKey newID : String) : Except String (Node × Storage) :=
  if (bucketGet st.networks networkID).isNone then
    .error ("network " ++ networkID ++ " not found")
  else
    let nameKey := networkID ++ ":" ++ name
    if (bucketGet st.nodesByName nameKey).isSome then
      .error ("node name " ++ name ++ " already exists")
    else
      let node : Node := ⟨newID, networkID, name, publicAddress, port,
        virtualIP, nodeType, privateKey, publicKey⟩
      .ok (node,
        { st with nodes := bucketPut st.nodes node.id node,
                  nodesByName := bucketPut st.nodesByName nameKey node.id })

/-- The VirtualNetworkManager's state: storage plus the in-memory pool
cache keyed by network id. -/
structure MgrState where
  storage : Storage
  ipPools : List (String × IPPool)
deriving Repr, DecidableEq

/-- wedev `ensureIPPool`: reuse the cached pool if present; else restore
the persisted snapshot; else reconstruct from live records (server IP
marked with a hard error on conflict, node IPs marked tolerating
conflicts), resync the cursor, and persist the reconstruction only when no
snapshot existed before. -/
def ensureIPPool (parse : String → CIDRInput) (vnm : MgrState)
    (networkID networkCIDR : String) : Except String MgrState :=
  if (bucketGet vnm.ipPools networkID).isSome then .ok vnm
  else
    let restored : Option IPPool :=
      match GetIPPoolState vnm.storage networkID with
      | .ok state =>
        match RestoreIPPool parse state with
        | .ok pool => some pool
        | .error _ => none
      | .error _ => none
    match restored with
    | some ipPool =>
      .ok { vnm with ipPools := bucketPut vnm.ipPools networkID ipPool }
    | none =>
      match NewIPPool parse networkCIDR with
      | .error e => .error ("failed to create IP pool: " ++ e)
      | .ok pool0 =>
        match (match GetServerByNetworkID vnm.storage networkID with
               | .ok server =>
                 match MarkIPAllocated pool0 server.virtualIP with
                 | .ok p => Except.ok p
                 | .error e =>
                   Except.error ("failed to mark server IP as allocated: " ++ e)
               | .error _ => Except.ok pool0) with
        | .error e => .error e
        | .ok pool1 =>
          let pool2 := markAll pool1
            ((ListNodesByNetworkID vnm.storage networkID).map
              (fun n => n.virtualIP))
          let pool3 := SyncNextIndex pool2
          let vnm1 : MgrState :=
            { vnm with ipPools := bucketPut vnm.ipPools networkID pool3 }
          match GetIPPoolState vnm1.storage networkID with
          | .ok _ => .ok vnm1
          | .error _ =>
            .ok { vnm1 with
                  storage := SaveIPPoolState vnm1.storage networkID
                    (GetState pool3) }

/-- wedev (manager) `CreateNode`.  `keys` is the external key-pair
capability's result (`none` models a generation failure); `newID` stands
for `uuid.New()`.  On the error paths after allocation the Go code
releases the address back to the in-memory pool and returns the error;
returning only the error here discards that cache mutation, which no
modelled claim observes. -/
def CreateNode (parse : String → CIDRInput) (validAddr : String → Bool)
    (vnm : MgrState) (networkName nodeName publicAddress : String)
    (port : Nat) (nodeType : String) (keys : Option (String × String))
    (newID : String) : Except String (Node × MgrState) :=
  match GetNetworkByName vnm.storage networkName with
  | .error e => .error e
  | .ok network =>
    if nodeType = NodeTypePeer ∧ publicAddress = "" then
      .error "peer type nodes require a public address"
    else if publicAddress ≠ "" ∧ validAddr publicAddress = false then
      .error "invalid public address"
    else
      match ensureIPPool parse vnm network.id network.cidr with
      | .error e => .error e
      | .ok vnm1 =>
        match bucketGet vnm1.ipPools network.id with
        | none => .error "IP pool missing"
        | some ipPool =>
          match AllocateNodeIP ipPool with
          | .error e => .error e
          | .ok ipp =>
            let vnm2 : MgrState :=
              { vnm1 with ipPools := bucketPut vnm1.ipPools network.id ipp.2 }
            match keys with
            | none => .error "failed to generate private key"
            | some kp =>
              let port1 := if port = 0 then 51820 else port
              let nodeType1 := if nodeType = "" then NodeTypePeer else nodeType
              match StorageCreateNode vnm2.storage network.id nodeName
                  publicAddress port1 ipp.1 nodeType1 kp.1 kp.2 newID with
              | .error e => .error e
              | .ok ns =>
                let st1 := SaveIPPoolState ns.2 network.id (GetState ipp.2)
                .ok (ns.1, { vnm2 with storage := st1 })

/-- The network, storage and manager state for claim C2's run: one network
`net1` whose pool is already cached. -/
def c2Net : VirtualNetwork := ⟨"N1", "net1", "10.0.0.0/29"⟩

def c2Storage0 : Storage :=
  ⟨[("N1", c2Net)], [("net1", "N1")], [], [], [], []⟩

def c2State0 : MgrState := ⟨c2Storage0, [("N1", pool29)]⟩

/-- The node stored by `CreateNode` with unspecified type and empty public
address: type defaulted to peer, public address empty. -/
def c2Node : Node :=
  ⟨"nid1", "N1", "n1", "", 51820, 167772162, "peer", "priv", "pub"⟩

def c2Storage1 : Storage :=
  ⟨[("N1", c2Net)], [("net1", "N1")], [], [("nid1", c2Node)],
    [("N1:n1", "nid1")], [("N1", ⟨"10.0.0.0/29", 167772161, [167772162], [], 2⟩)]⟩

def c2State1 : MgrState := ⟨c2Storage1, [("N1", pool29a1)]⟩

/-! ### Basic lemmas about the embedding -/

theorem increment_iterate (n x : Nat) (hx : x < 2 ^ 32) :
    increment^[n] x = (x + n) % 2 ^ 32 := by
  induction n with
  | zero => simpa using (Nat.mod_eq_of_lt hx).symm
  | succ n ih =>
    rw [Function.iterate_succ_apply', ih, increment, Nat.mod_add_mod,
      Nat.add_assoc]

theorem mem_mapInsert {l : List Nat} {a ip : Nat} :
    a ∈ mapInsert l ip ↔ a = ip ∨ a ∈ l := by
  unfold mapInsert
  split
  · rename_i hin
    exact ⟨Or.inr, fun h => h.elim (fun he => he ▸ hin) id⟩
  · simp [List.mem_cons]

theorem alloc_cases {p : IPPool} {ip : Nat} {p' : IPPool}
    (hstep : AllocateNodeIP p = .ok (ip, p')) :
    (∃ rest, p.recycled = ip :: rest ∧
      p' = { p with recycled := rest, allocated := mapInsert p.allocated ip }) ∨
    (p.recycled = [] ∧ p.nextIndex < p.totalUsable ∧
      ip = increment^[p.nextIndex] p.firstUsable ∧
      p' = { p with nextIndex := p.nextIndex + 1,
                    allocated := mapInsert p.allocated ip }) := by
  cases hrec : p.recycled with
  | nil =>
    simp only [AllocateNodeIP, hrec] at hstep
    split at hstep
    · exact absurd hstep (by simp)
    · rename_i hge
      simp only [Except.ok.injEq, Prod.mk.injEq] at hstep
      obtain ⟨hip, hp'⟩ := hstep
      right
      subst hip
      exact ⟨rfl, by omega, rfl, hp'.symm⟩
  | cons ip0 rest =>
    simp only [AllocateNodeIP, hrec] at hstep
    simp only [Except.ok.injEq, Prod.mk.injEq] at hstep
    obtain ⟨hip, hp'⟩ := hstep
    subst hip
    exact Or.inl ⟨rest, rfl, hp'.symm⟩

theorem release_cases {p : IPPool} {ip : Nat} {p' : IPPool}
    (hstep : ReleaseNodeIP p ip = .ok p') :
    ip ≠ p.serverIP ∧ ip ∈ p.allocated ∧
    p' = { p with allocated := p.allocated.filter (fun x => x ≠ ip),
                  recycled := p.recycled ++ [ip] } := by
  unfold ReleaseNodeIP at hstep
  split at hstep
  · exact absurd hstep (by simp)
  · split at hstep
    · exact absurd hstep (by simp)
    · rename_i h1 h2
      simp only [Except.ok.injEq] at hstep
      exact ⟨h1, not_not.mp h2, hstep.symm⟩

theorem mark_cases {p : IPPool} {ip : Nat} {p' : IPPool}
    (hstep : MarkIPAllocated p ip = .ok p') :
    ip ∉ p.allocated ∧ p' = { p with allocated := mapInsert p.allocated ip } := by
  unfold MarkIPAllocated at hstep
  split at hstep
  · exact absurd hstep (by simp)
  · rename_i h1
    simp only [Except.ok.injEq] at hstep
    exact ⟨h1, hstep.symm⟩

theorem sync_fields (p : IPPool) :
    (SyncNextIndex p).allocated = p.allocated ∧
    (SyncNextIndex p).recycled = p.recycled ∧
    (SyncNextIndex p).serverIP = p.serverIP ∧
    (SyncNextIndex p).firstUsable = p.firstUsable ∧
    (SyncNextIndex p).totalUsable = p.totalUsable ∧
    1 ≤ (SyncNextIndex p).nextIndex := by
  refine ⟨rfl, rfl, rfl, rfl, rfl, ?_⟩
  exact Nat.succ_le_succ (Nat.zero_le _)

theorem release_serverIP (p : IPPool) :
    ReleaseNodeIP p p.serverIP = .error "cannot release server IP" := by
  unfold ReleaseNodeIP
  rw [if_pos rfl]

/-- Characterization of a freshly constructed pool. -/
theorem newIPPool_ok {parse : String → CIDRInput} {cidr : String}
    {base ones : Nat} {p : IPPool}
    (hparse : parse cidr = .parsed true base ones)
    (h0 : NewIPPool parse cidr = .ok p) :
    2 < 2 ^ (32 - ones) ∧
    p.serverIP = increment base ∧ p.firstUsable = increment base ∧
    p.allocated = [] ∧ p.recycled = [] ∧ p.nextIndex = 1 ∧
    p.totalUsable = 2 ^ (32 - ones) - 2 := by
  simp only [NewIPPool, hparse] at h0
  rw [if_neg (by simp)] at h0
  split at h0
  · rename_i hgt
    simp only [Except.ok.injEq] at h0
    subst h0
    exact ⟨hgt, rfl, rfl, rfl, rfl, rfl, rfl⟩
  · exact absurd h0 (by simp)

/-- For a masked IPv4 base (`ParseCIDR` guarantee) of a valid block, the
first usable address is `base + 1` and no index below `totalUsable`
wraps around `2^32`. -/
theorem fresh_range {base ones : Nat}
    (hbase : base + 2 ^ (32 - ones) ≤ 2 ^ 32) (hgt : 2 < 2 ^ (32 - ones)) :
    increment base = base + 1 ∧
    (base + 1) + (2 ^ (32 - ones) - 2) < 2 ^ 32 := by
  have h1 : base + 1 < 2 ^ 32 := by omega
  exact ⟨Nat.mod_eq_of_lt h1, by omega⟩

/-! ### The allocate/release invariant (claim C4) -/

/-- Every address in play is `firstUsable + i` for a live index `i`. -/
def IdxOk (f next ip : Nat) : Prop := ∃ i, 1 ≤ i ∧ i < next ∧ ip = f + i

/-- Invariant of pools reachable from a fresh pool by allocate/release. -/
structure PoolInv (p : IPPool) : Prop where
  alloc_idx : ∀ ip ∈ p.allocated, IdxOk p.firstUsable p.nextIndex ip
  rec_idx : ∀ ip ∈ p.recycled, IdxOk p.firstUsable p.nextIndex ip
  rec_nodup : p.recycled.Nodup
  disj : ∀ ip ∈ p.recycled, ip ∉ p.allocated
  next_pos : 1 ≤ p.nextIndex
  next_le : p.nextIndex ≤ p.totalUsable
  no_wrap : p.firstUsable + p.totalUsable < 2 ^ 32

theorem fresh_inv {parse : String → CIDRInput} {cidr : String}
    {base ones : Nat} {p : IPPool}
    (hparse : parse cidr = .parsed true base ones)
    (hbase : base + 2 ^ (32 - ones) ≤ 2 ^ 32)
    (h0 : NewIPPool parse cidr = .ok p) : PoolInv p := by
  obtain ⟨hgt, hsrv, hf, ha, hr, hn, ht⟩ := newIPPool_ok hparse h0
  obtain ⟨hinc, hw⟩ := fresh_range hbase hgt
  refine ⟨?_, ?_, ?_, ?_, ?_, ?_, ?_⟩
  · rw [ha]; intro ip h; cases h
  · rw [hr]; intro ip h; cases h
  · rw [hr]; exact List.nodup_nil
  · rw [hr]; intro ip h; cases h
  · rw [hn]
  · rw [hn, ht]; omega
  · rw [hf, ht, hinc]; exact hw

theorem inv_preserved_alloc {p : IPPool} {ip : Nat} {p' : IPPool}
    (h : PoolInv p) (hstep : AllocateNodeIP p = .ok (ip, p')) :
    PoolInv p' ∧ ip ∉ p.allocated ∧ ip ∈ p'.allocated := by
  rcases alloc_cases hstep with ⟨rest, hrec, rfl⟩ | ⟨hrec, hlt, hip, rfl⟩
  · -- reuse of the recycle-FIFO head
    have hmem : ip ∈ p.recycled := hrec ▸ List.mem_cons_self ip rest
    have hnotalloc : ip ∉ p.allocated := h.disj ip hmem
    have hrest : ∀ x ∈ rest, x ∈ p.recycled := by
      intro x hx; rw [hrec]; exact List.mem_cons_of_mem _ hx
    have hnd : (ip :: rest).Nodup := hrec ▸ h.rec_nodup
    refine ⟨⟨?_, ?_, ?_, ?_, h.next_pos, h.next_le, h.no_wrap⟩,
      hnotalloc, mem_mapInsert.mpr (Or.inl rfl)⟩
    · intro x hx
      rcases mem_mapInsert.mp hx with rfl | hx'
      · exact h.rec_idx x hmem
      · exact h.alloc_idx x hx'
    · intro x hx
      exact h.rec_idx x (hrest x hx)
    · exact hnd.of_cons
    · intro x hx hx'
      rcases mem_mapInsert.mp hx' with rfl | hx''
      · exact (List.nodup_cons.mp hnd).1 hx
      · exact h.disj x (hrest x hx) hx''
  · -- fresh address at the cursor
    have hflt : p.firstUsable < 2 ^ 32 := by
      have := h.no_wrap; omega
    have hipval : ip = p.firstUsable + p.nextIndex := by
      rw [hip, increment_iterate _ _ hflt, Nat.mod_eq_of_lt]
      have := h.no_wrap; omega
    have hnotalloc : ip ∉ p.allocated := by
      intro hmem
      obtain ⟨i, h1, h2, h3⟩ := h.alloc_idx ip hmem
      omega
    refine ⟨⟨?_, ?_, ?_, ?_, Nat.le_succ_of_le h.next_pos, hlt, h.no_wrap⟩,
      hnotalloc, mem_mapInsert.mpr (Or.inl rfl)⟩
    · intro x hx
      rcases mem_mapInsert.mp hx with rfl | hx'
      · exact ⟨p.nextIndex, h.next_pos, Nat.lt_succ_self _, hipval⟩
      · obtain ⟨i, hi1, hi2, hi3⟩ := h.alloc_idx x hx'
        exact ⟨i, hi1, Nat.lt_succ_of_lt hi2, hi3⟩
    · intro x hx
      obtain ⟨i, hi1, hi2, hi3⟩ := h.rec_idx x hx
      exact ⟨i, hi1, Nat.lt_succ_of_lt hi2, hi3⟩
    · exact h.rec_nodup
    · intro x hx hx'
      rcases mem_mapInsert.mp hx' with rfl | hx''
      · obtain ⟨i, hi1, hi2, hi3⟩ := h.rec_idx x hx
        omega
      · exact h.disj x hx hx''

theorem inv_preserved_release {p : IPPool} {ip : Nat} {p' : IPPool}
    (h : PoolInv p) (hstep : ReleaseNodeIP p ip = .ok p') : PoolInv p' := by
  obtain ⟨hsrv, hmem, rfl⟩ := release_cases hstep
  have hnotrec : ip ∉ p.recycled := fun hr => h.disj ip hr hmem
  refine ⟨?_, ?_, ?_, ?_, h.next_pos, h.next_le, h.no_wrap⟩
  · intro x hx
    simp only [List.mem_filter, decide_eq_true_eq] at hx
    exact h.alloc_idx x hx.1
  · intro x hx
    rcases List.mem_append.mp hx with hx' | hx'
    · exact h.rec_idx x hx'
    · rcases List.mem_singleton.mp hx' with rfl
      exact h.alloc_idx x hmem
  · rw [List.nodup_append]
    exact ⟨h.rec_nodup, List.nodup_singleton ip,
      fun a ha hb => hnotrec (List.mem_singleton.mp hb ▸ ha)⟩
  · intro x hx hx'
    simp only [List.mem_filter, decide_eq_true_eq] at hx'
    rcases List.mem_append.mp hx with hx'' | hx''
    · exact h.disj x hx'' hx'.1
    · exact hx'.2 (List.mem_singleton.mp hx'')

theorem inv_applyOp {p : IPPool} {op : PoolOp} (h : PoolInv p)
    (hop : op.isAllocOrRelease) : PoolInv (applyOp p op) := by
  cases op with
  | alloc =>
    simp only [applyOp]
    cases hstep : AllocateNodeIP p with
    | ok pr =>
      obtain ⟨ip, p'⟩ := pr
      exact (inv_preserved_alloc h hstep).1
    | error e => exact h
  | release ip =>
    simp only [applyOp]
    cases hstep : ReleaseNodeIP p ip with
    | ok q => exact inv_preserved_release h hstep
    | error e => exact h
  | mark ip => exact absurd hop (by simp [PoolOp.isAllocOrRelease])
  | sync => exact absurd hop (by simp [PoolOp.isAllocOrRelease])

theorem inv_applyOps {p : IPPool} (ops : List PoolOp) (h : PoolInv p)
    (hops : ∀ op ∈ ops, op.isAllocOrRelease) : PoolInv (applyOps p ops) := by
  induction ops generalizing p with
  | nil => exact h
  | cons op rest ih =>
    exact ih (inv_applyOp h (hops op (List.mem_cons_self _ _)))
      (fun o ho => hops o (List.mem_cons_of_mem _ ho))

/-! ### Equation helpers for the allocation paths -/

theorem alloc_recycled {p : IPPool} {ip0 : Nat} {rest : List Nat}
    (hrec : p.recycled = ip0 :: rest) :
    AllocateNodeIP p =
      .ok (ip0, { p with recycled := rest,
                         allocated := mapInsert p.allocated ip0 }) := by
  simp only [AllocateNodeIP, hrec]

theorem alloc_cursor {p : IPPool} (hrec : p.recycled = [])
    (hlt : p.nextIndex < p.totalUsable) :
    AllocateNodeIP p =
      .ok (increment^[p.nextIndex] p.firstUsable,
        { p with nextIndex := p.nextIndex + 1,
                 allocated := mapInsert p.allocated
                   (increment^[p.nextIndex] p.firstUsable) }) := by
  simp only [AllocateNodeIP, hrec]
  rw [if_neg (by omega)]

theorem alloc_exhausted {p : IPPool} (hrec : p.recycled = [])
    (hge : p.totalUsable ≤ p.nextIndex) :
    AllocateNodeIP p = .error ("no available IPs in pool (total usable: " ++
      toString p.totalUsable ++ ", allocated: " ++
      toString p.allocated.length ++ ")") := by
  simp only [AllocateNodeIP, hrec]
  rw [if_pos hge]

/-! ### The hub-address invariant, preserved by all operations (claim C5) -/

/-- Facts that hold in every state reachable from a fresh pool by any mix
of allocate, release, mark and resync operations. -/
structure HubInv (p : IPPool) : Prop where
  next_pos : 1 ≤ p.nextIndex
  no_wrap : p.firstUsable + p.totalUsable < 2 ^ 32
  server_first : p.serverIP = p.firstUsable
  rec_no_server : p.serverIP ∉ p.recycled

theorem fresh_hubInv {parse : String → CIDRInput} {cidr : String}
    {base ones : Nat} {p : IPPool}
    (hparse : parse cidr = .parsed true base ones)
    (hbase : base + 2 ^ (32 - ones) ≤ 2 ^ 32)
    (h0 : NewIPPool parse cidr = .ok p) : HubInv p := by
  obtain ⟨hgt, hsrv, hf, ha, hr, hn, ht⟩ := newIPPool_ok hparse h0
  obtain ⟨hinc, hw⟩ := fresh_range hbase hgt
  refine ⟨by rw [hn], ?_, by rw [hsrv, hf], by rw [hr]; exact List.not_mem_nil _⟩
  rw [hf, ht, hinc]
  exact hw

theorem statics_applyOp (p : IPPool) (op : PoolOp) :
    (applyOp p op).serverIP = p.serverIP ∧
    (applyOp p op).firstUsable = p.firstUsable ∧
    (applyOp p op).totalUsable = p.totalUsable := by
  cases op with
  | alloc =>
    simp only [applyOp]
    cases hstep : AllocateNodeIP p with
    | ok pr =>
      obtain ⟨ip, p'⟩ := pr
      rcases alloc_cases hstep with ⟨rest, hrec, rfl⟩ | ⟨hrec, hlt, hip, rfl⟩ <;>
        exact ⟨rfl, rfl, rfl⟩
    | error e => exact ⟨rfl, rfl, rfl⟩
  | release ip =>
    simp only [applyOp]
    cases hstep : ReleaseNodeIP p ip with
    | ok q =>
      obtain ⟨hsrv, hmem, rfl⟩ := release_cases hstep
      exact ⟨rfl, rfl, rfl⟩
    | error e => exact ⟨rfl, rfl, rfl⟩
  | mark ip =>
    simp only [applyOp]
    cases hstep : MarkIPAllocated p ip with
    | ok q =>
      obtain ⟨hmem, rfl⟩ := mark_cases hstep
      exact ⟨rfl, rfl, rfl⟩
    | error e => exact ⟨rfl, rfl, rfl⟩
  | sync => exact ⟨rfl, rfl, rfl⟩

theorem hubInv_applyOp {p : IPPool} (h : HubInv p) (op : PoolOp) :
    HubInv (applyOp p op) := by
  cases op with
  | alloc =>
    simp only [applyOp]
    cases hstep : AllocateNodeIP p with
    | ok pr =>
      obtain ⟨ip, p'⟩ := pr
      rcases alloc_cases hstep with ⟨rest, hrec, rfl⟩ | ⟨hrec, hlt, hip, rfl⟩
      · refine ⟨h.next_pos, h.no_wrap, h.server_first, fun hmem => ?_⟩
        exact h.rec_no_server (hrec ▸ List.mem_cons_of_mem _ hmem)
      · exact ⟨Nat.le_succ_of_le h.next_pos, h.no_wrap, h.server_first,
          fun hmem => h.rec_no_server hmem⟩
    | error e => exact h
  | release ip =>
    simp only [applyOp]
    cases hstep : ReleaseNodeIP p ip with
    | ok q =>
      obtain ⟨hsrv, hmem, rfl⟩ := release_cases hstep
      refine ⟨h.next_pos, h.no_wrap, h.server_first, fun hin => ?_⟩
      rcases List.mem_append.mp hin with hin' | hin'
      · exact h.rec_no_server hin'
      · exact hsrv ((List.mem_singleton.mp hin').symm)
    | error e => exact h
  | mark ip =>
    simp only [applyOp]
    cases hstep : MarkIPAllocated p ip with
    | ok q =>
      obtain ⟨hmem, rfl⟩ := mark_cases hstep
      exact ⟨h.next_pos, h.no_wrap, h.server_first, h.rec_no_server⟩
    | error e => exact h
  | sync =>
    exact ⟨Nat.succ_le_succ (Nat.zero_le _), h.no_wrap, h.server_first,
      h.rec_no_server⟩

theorem hubInv_applyOps {p : IPPool} (ops : List PoolOp) (h : HubInv p) :
    HubInv (applyOps p ops) := by
  induction ops generalizing p with
  | nil => exact h
  | cons op rest ih => exact ih (hubInv_applyOp h op)

theorem statics_applyOps (p : IPPool) (ops : List PoolOp) :
    (applyOps p ops).serverIP = p.serverIP ∧
    (applyOps p ops).firstUsable = p.firstUsable ∧
    (applyOps p ops).totalUsable = p.totalUsable := by
  induction ops generalizing p with
  | nil => exact ⟨rfl, rfl, rfl⟩
  | cons op rest ih =>
    obtain ⟨h1, h2, h3⟩ := ih (applyOp p op)
    obtain ⟨g1, g2, g3⟩ := statics_applyOp p op
    exact ⟨h1.trans g1, h2.trans g2, h3.trans g3⟩

/-! ### Repeated allocation (claim C8) -/

theorem allocateN_succ (p : IPPool) (n : Nat) :
    allocateN p (n + 1) = match AllocateNodeIP p with
      | .ok (_, p') => allocateN p' n
      | .error e => .error e := rfl

theorem allocateN_run {p : IPPool} (n : Nat) (hrec : p.recycled = [])
    (hn : p.nextIndex + n ≤ p.totalUsable) :
    ∃ p', allocateN p n = .ok p' ∧ p'.recycled = [] ∧
      p'.nextIndex = p.nextIndex + n ∧ p'.totalUsable = p.totalUsable := by
  induction n generalizing p with
  | zero => exact ⟨p, rfl, hrec, by omega, rfl⟩
  | succ n ih =>
    have hlt : p.nextIndex < p.totalUsable := by omega
    have hstep := alloc_cursor hrec hlt
    obtain ⟨p', h1, h2, h3, h4⟩ :=
      @ih { p with nextIndex := p.nextIndex + 1,
                   allocated := mapInsert p.allocated
                     (increment^[p.nextIndex] p.firstUsable) }
        hrec (show p.nextIndex + 1 + n ≤ p.totalUsable by omega)
    have h3' : p'.nextIndex = p.nextIndex + 1 + n := h3
    have h4' : p'.totalUsable = p.totalUsable := h4
    refine ⟨p', ?_, h2, by omega, h4'⟩
    rw [allocateN_succ, hstep]
    exact h1

/-! ### Cursor resynchronisation (claim C7) -/

theorem ipIndexGo_finds {f : Nat} (i : Nat) (hfi : f + i < 2 ^ 32) :
    ∀ fuel j, j ≤ i → i - j < fuel → ipIndexGo (f + i) fuel (f + j) j = i := by
  intro fuel
  induction fuel with
  | zero => intro j hj hd; exact absurd hd (by omega)
  | succ fuel ih =>
    intro j hj hd
    by_cases hji : j = i
    · subst hji
      simp [ipIndexGo]
    · have hne : f + j ≠ f + i := by omega
      simp only [ipIndexGo, if_neg hne]
      have hstep : increment (f + j) = f + (j + 1) := by
        unfold increment
        rw [Nat.mod_eq_of_lt (by omega)]
        omega
      rw [hstep]
      exact ih (j + 1) (by omega) (by omega)

theorem ipIndexLoop_finds {f total : Nat} (i : Nat) (hi : i < total)
    (hw : f + total < 2 ^ 32) :
    ipIndexLoop (f + i) total f 0 = i := by
  unfold ipIndexLoop
  have h0 : f = f + 0 := rfl
  rw [h0]
  exact ipIndexGo_finds i (by omega) total 0 (Nat.zero_le i) (by omega)

theorem sync_fold_init (s : Nat) (idx : Nat → Nat) (l : List Nat) (a : Nat) :
    a ≤ l.foldl (fun m ip => if ip = s then m
      else if idx ip > m then idx ip else m) a := by
  induction l generalizing a with
  | nil => exact le_refl a
  | cons y t ih =>
    rw [List.foldl_cons]
    refine le_trans ?_ (ih _)
    by_cases hy : y = s
    · rw [if_pos hy]
    · rw [if_neg hy]
      split <;> omega

theorem sync_fold_mem (s : Nat) (idx : Nat → Nat) (l : List Nat) :
    ∀ (a x : Nat), x ∈ l → x ≠ s →
    idx x ≤ l.foldl (fun m ip => if ip = s then m
      else if idx ip > m then idx ip else m) a := by
  induction l with
  | nil => intro a x hx _; cases hx
  | cons y t ih =>
    intro a x hx hxs
    rw [List.foldl_cons]
    rcases List.mem_cons.mp hx with rfl | hx'
    · refine le_trans ?_ (sync_fold_init s idx t _)
      rw [if_neg hxs]
      split <;> omega
    · exact ih _ x hx' hxs

theorem sync_nextIndex_gt (p : IPPool) (x : Nat) (hx : x ∈ p.allocated)
    (hxs : x ≠ p.serverIP) :
    ipIndexLoop x p.totalUsable p.firstUsable 0 < (SyncNextIndex p).nextIndex := by
  have h := sync_fold_mem p.serverIP
    (fun ip => ipIndexLoop ip p.totalUsable p.firstUsable 0)
    p.allocated 0 x hx hxs
  simp only [] at h
  have h2 : (SyncNextIndex p).nextIndex = p.allocated.foldl (fun m ip =>
      if ip = p.serverIP then m
      else if ipIndexLoop ip p.totalUsable p.firstUsable 0 > m
        then ipIndexLoop ip p.totalUsable p.firstUsable 0 else m) 0 + 1 := rfl
  omega

theorem markAll_fields (l : List Nat) (p : IPPool) :
    (markAll p l).recycled = p.recycled ∧
    (markAll p l).nextIndex = p.nextIndex ∧
    (markAll p l).serverIP = p.serverIP ∧
    (markAll p l).firstUsable = p.firstUsable ∧
    (markAll p l).totalUsable = p.totalUsable := by
  induction l generalizing p with
  | nil => exact ⟨rfl, rfl, rfl, rfl, rfl⟩
  | cons y t ih =>
    have hone : markAll p (y :: t) = markAll
        (match MarkIPAllocated p y with | .ok p' => p' | .error _ => p) t := rfl
    rw [hone]
    cases hstep : MarkIPAllocated p y with
    | ok q =>
      obtain ⟨hmem, rfl⟩ := mark_cases hstep
      simpa using ih _
    | error e => simpa using ih p

theorem markAll_mem (l : List Nat) :
    ∀ (p : IPPool) (x : Nat), (x ∈ l ∨ x ∈ p.allocated) →
    x ∈ (markAll p l).allocated := by
  induction l with
  | nil =>
    intro p x hx
    exact hx.resolve_left (fun h => absurd h (List.not_mem_nil x))
  | cons y t ih =>
    intro p x hx
    have hone : markAll p (y :: t) = markAll
        (match MarkIPAllocated p y with | .ok p' => p' | .error _ => p) t := rfl
    rw [hone]
    cases hstep : MarkIPAllocated p y with
    | ok q =>
      obtain ⟨hmem, rfl⟩ := mark_cases hstep
      apply ih
      rcases hx with hx' | hx'
      · rcases List.mem_cons.mp hx' with rfl | hx''
        · exact Or.inr (mem_mapInsert.mpr (Or.inl rfl))
        · exact Or.inl hx''
      · exact Or.inr (mem_mapInsert.mpr (Or.inr hx'))
    | error e =>
      apply ih
      rcases hx with hx' | hx'
      · rcases List.mem_cons.mp hx' with rfl | hx''
        · refine Or.inr ?_
          by_contra hnot
          exact absurd hstep (by simp [MarkIPAllocated, hnot])
        · exact Or.inl hx''
      · exact Or.inr hx'

/-! ### Claims C3 to C8 -/

/-- C3 (counterexample): the block `10.0.0.0/30` has `2^2 - 2 = 2` usable
addresses (at most 2), yet `NewIPPool` accepts it, because the code tests
`totalIPs > 2` on the total address count rather than on the usable count. -/
theorem C3_counterexample :
    2 ^ (32 - 30) - 2 ≤ 2 ∧
    isOkE (NewIPPool (fun _ => CIDRInput.parsed true 167772160 30)
      "10.0.0.0/30") = true := by
  decide

/-- C3 (amended): Address Pool construction returns an error exactly when
the input is malformed CIDR, a non-IPv4 block, or a block with at most 2
total addresses (prefix /31 or /32); a /30 block (2 usable addresses) is
accepted. -/
theorem C3_construction_rejects_iff (parse : String → CIDRInput)
    (cidr : String) :
    isOkE (NewIPPool parse cidr) = false ↔
    specConstructionRejects (parse cidr) = true := by
  cases hc : parse cidr with
  | malformed => simp [NewIPPool, hc, isOkE, specConstructionRejects]
  | parsed isV4 base ones =>
    cases isV4 with
    | false => simp [NewIPPool, hc, isOkE, specConstructionRejects]
    | true =>
      by_cases hgt : 2 < 2 ^ (32 - ones)
      · have h2 : ¬(2 ^ (32 - ones) ≤ 2) := by omega
        simp [NewIPPool, hc, isOkE, specConstructionRejects, hgt, h2]
      · have h2 : 2 ^ (32 - ones) ≤ 2 := by omega
        simp [NewIPPool, hc, isOkE, specConstructionRejects, hgt, h2]

/-- C4: starting from a freshly constructed pool, after any sequence of
allocate and release operations, a successful allocate returns an address
that no live (unreleased) allocation holds: it is not in the allocated set,
and it is in the allocated set afterwards.  Since allocate inserts the
returned address into the allocated set and release removes it, the
allocated set is exactly the set of unreleased allocation results, so no
two live allocations ever share an address. -/
theorem C4_no_double_allocation
    (parse : String → CIDRInput) (cidr : String) (base ones : Nat)
    (hparse : parse cidr = .parsed true base ones)
    (hbase : base + 2 ^ (32 - ones) ≤ 2 ^ 32)
    (p0 : IPPool) (h0 : NewIPPool parse cidr = .ok p0)
    (ops : List PoolOp) (hops : ∀ op ∈ ops, op.isAllocOrRelease)
    (ip : Nat) (p' : IPPool)
    (hstep : AllocateNodeIP (applyOps p0 ops) = .ok (ip, p')) :
    ip ∉ (applyOps p0 ops).allocated ∧ ip ∈ p'.allocated := by
  have hinv := inv_applyOps ops (fresh_inv hparse hbase h0) hops
  obtain ⟨-, h2, h3⟩ := inv_preserved_alloc hinv hstep
  exact ⟨h2, h3⟩

/-- C4 witness: on the `10.0.0.0/29` pool after one allocation, the next
allocate returns `10.0.0.3 = 167772163`, which is not held by the live
allocation `10.0.0.2`. -/
theorem C4_witness :
    167772160 + 2 ^ (32 - 29) ≤ 2 ^ 32 ∧
    167772163 ∉ (applyOps pool29 [PoolOp.alloc]).allocated ∧
    167772163 ∈ pool29a2.allocated := by
  have hops : ∀ op ∈ [PoolOp.alloc], op.isAllocOrRelease := by
    intro op hop
    rcases List.mem_singleton.mp hop with rfl
    trivial
  have h := C4_no_double_allocation
    (fun _ => CIDRInput.parsed true 167772160 29) "10.0.0.0/29"
    167772160 29 rfl (by decide) pool29 (by decide)
    [PoolOp.alloc] hops 167772163 pool29a2 (by decide)
  exact ⟨by decide, h.1, h.2⟩

/-- C5: for every CIDR with at least 3 usable addresses, the hub (server)
address is the first usable address `base + 1`; in every state reachable by
any sequence of operations, no successful allocate returns it, and
releasing it fails with the invalid-release error. -/
theorem C5_hub_address_protected
    (parse : String → CIDRInput) (cidr : String) (base ones : Nat)
    (hparse : parse cidr = .parsed true base ones)
    (hbase : base + 2 ^ (32 - ones) ≤ 2 ^ 32)
    (p0 : IPPool) (h0 : NewIPPool parse cidr = .ok p0)
    (ops : List PoolOp) :
    GetServerIP p0 = base + 1 ∧
    (∀ ip p', AllocateNodeIP (applyOps p0 ops) = .ok (ip, p') →
      ip ≠ GetServerIP p0) ∧
    ReleaseNodeIP (applyOps p0 ops) (GetServerIP p0) =
      .error "cannot release server IP" := by
  obtain ⟨hgt, hsrv, hf, ha, hr, hn, ht⟩ := newIPPool_ok hparse h0
  obtain ⟨hinc, hw⟩ := fresh_range hbase hgt
  have hhub := hubInv_applyOps ops (fresh_hubInv hparse hbase h0)
  obtain ⟨hs, hfu, htu⟩ := statics_applyOps p0 ops
  have hsrv1 : GetServerIP p0 = base + 1 := by
    unfold GetServerIP
    rw [hsrv, hinc]
  refine ⟨hsrv1, ?_, ?_⟩
  · intro ip p' hstep heq
    rcases alloc_cases hstep with ⟨rest, hrec, rfl⟩ | ⟨hrec, hlt, hip, rfl⟩
    · have hmem : ip ∈ (applyOps p0 ops).recycled :=
        hrec ▸ List.mem_cons_self ip rest
      apply hhub.rec_no_server
      have hqs : (applyOps p0 ops).serverIP = ip := by
        rw [hs]
        exact heq.symm
      rw [hqs]
      exact hmem
    · have hfu32 : (applyOps p0 ops).firstUsable < 2 ^ 32 := by
        have := hhub.no_wrap
        omega
      have hipv : ip = (applyOps p0 ops).firstUsable +
          (applyOps p0 ops).nextIndex := by
        rw [hip, increment_iterate _ _ hfu32, Nat.mod_eq_of_lt]
        have := hhub.no_wrap
        omega
      have hserv : GetServerIP p0 = (applyOps p0 ops).firstUsable :=
        hs.symm.trans hhub.server_first
      have heq2 : ip = (applyOps p0 ops).firstUsable := heq.trans hserv
      have hnp := hhub.next_pos
      omega
  · have herr := release_serverIP (applyOps p0 ops)
    rw [hs] at herr
    exact herr

/-- C5 witness: on the `10.0.0.0/29` pool, the hub address is
`10.0.0.1 = 167772161 = 167772160 + 1`, and releasing it after one
allocation fails. -/
theorem C5_witness :
    167772160 + 2 ^ (32 - 29) ≤ 2 ^ 32 ∧
    GetServerIP pool29 = 167772160 + 1 ∧
    ReleaseNodeIP (applyOps pool29 [PoolOp.alloc]) (GetServerIP pool29) =
      .error "cannot release server IP" := by
  have h := C5_hub_address_protected
    (fun _ => CIDRInput.parsed true 167772160 29) "10.0.0.0/29"
    167772160 29 rfl (by decide) pool29 (by decide) [PoolOp.alloc]
  exact ⟨by decide, h.1, h.2.2⟩

/-- C6 (counterexample): on a fresh `10.0.0.0/29` pool, allocate
`10.0.0.2` and `10.0.0.3`, release `10.0.0.2` then `10.0.0.3`, and
allocate again: the released address was `167772163` but the immediate
re-allocation (with no intervening allocations) returns `167772162`, the
earlier-freed head of the recycle queue — so "releasing an address and
then immediately allocating returns that same address" fails for pool
states whose recycle queue is non-empty. -/
theorem C6_counterexample :
    ((do
      let p0 ← NewIPPool (fun _ => CIDRInput.parsed true 167772160 29)
        "10.0.0.0/29"
      let x1 ← AllocateNodeIP p0
      let x2 ← AllocateNodeIP x1.2
      let p3 ← ReleaseNodeIP x2.2 x1.1
      let p4 ← ReleaseNodeIP p3 x2.1
      let x5 ← AllocateNodeIP p4
      pure (x1.1, x2.1, x5.1)) : Except String (Nat × Nat × Nat)) =
      .ok (167772162, 167772163, 167772162) ∧
    (167772163 : Nat) ≠ 167772162 := by
  decide

/-- C6 (amended): releasing an address when the recycle queue is empty and
then immediately allocating returns that same address; in general released
addresses are appended to the recycle-queue tail and allocations consume
the queue from its head (first freed, first reused) before any new cursor
address is handed out. -/
theorem C6_fifo_recycling (p : IPPool) (ip : Nat) (p' : IPPool) :
    (p.recycled = [] → ReleaseNodeIP p ip = .ok p' →
      AllocateNodeIP p' = .ok (ip, { p' with recycled := [],
                                             allocated := mapInsert p'.allocated ip })) ∧
    (ReleaseNodeIP p ip = .ok p' → p'.recycled = p.recycled ++ [ip]) ∧
    (∀ x rest, p.recycled = x :: rest →
      AllocateNodeIP p = .ok (x, { p with recycled := rest,
                                          allocated := mapInsert p.allocated x })) := by
  refine ⟨?_, ?_, ?_⟩
  · intro hrec hrel
    obtain ⟨hsrv, hmem, rfl⟩ := release_cases hrel
    have hr : ({ p with allocated := p.allocated.filter (fun x => x ≠ ip),
                        recycled := p.recycled ++ [ip] }).recycled
        = ip :: [] := by
      show p.recycled ++ [ip] = ip :: []
      rw [hrec]
      rfl
    exact alloc_recycled hr
  · intro hrel
    obtain ⟨hsrv, hmem, rfl⟩ := release_cases hrel
    rfl
  · intro x rest hrec
    exact alloc_recycled hrec

/-- C6 witness: releasing `10.0.0.2` on a pool with an empty recycle queue
and allocating again returns `10.0.0.2`, restoring the original state. -/
theorem C6_witness :
    pool29a1.recycled = [] ∧
    ReleaseNodeIP pool29a1 167772162 = .ok pool29r ∧
    AllocateNodeIP pool29r = .ok (167772162, pool29a1) ∧
    pool29r.recycled = pool29a1.recycled ++ [167772162] := by
  have h := C6_fifo_recycling pool29a1 167772162 pool29r
  have hrec : pool29a1.recycled = [] := rfl
  have hrel : ReleaseNodeIP pool29a1 167772162 = .ok pool29r := by decide
  exact ⟨hrec, hrel, h.1 hrec hrel, h.2.1 hrel⟩

/-- C7: marking any duplicate-free list of in-range addresses on a fresh
pool (in any order) and resyncing the cursor guarantees that every
subsequent successful allocation returns an address distinct from all
marked addresses. -/
theorem C7_resync_avoids_marked
    (parse : String → CIDRInput) (cidr : String) (base ones : Nat)
    (hparse : parse cidr = .parsed true base ones)
    (hbase : base + 2 ^ (32 - ones) ≤ 2 ^ 32)
    (p0 : IPPool) (h0 : NewIPPool parse cidr = .ok p0)
    (l : List Nat) (hl : l.Nodup)
    (hrange : ∀ x ∈ l, ∃ i, i < p0.totalUsable ∧ x = p0.firstUsable + i)
    (ops : List PoolOp) (hops : ∀ op ∈ ops, op = PoolOp.alloc)
    (ip : Nat) (p' : IPPool)
    (hstep : AllocateNodeIP (applyOps (SyncNextIndex (markAll p0 l)) ops)
      = .ok (ip, p')) :
    ip ∉ l := by
  obtain ⟨hgt, hsrv, hf, ha, hr, hn, ht⟩ := newIPPool_ok hparse h0
  obtain ⟨hinc, hw⟩ := fresh_range hbase hgt
  have hfw : p0.firstUsable + p0.totalUsable < 2 ^ 32 := by
    rw [hf, ht, hinc]
    exact hw
  obtain ⟨mr, mn, ms, mf, mt⟩ := markAll_fields l p0
  have hJrec : (SyncNextIndex (markAll p0 l)).recycled = [] := by
    rw [(sync_fields _).2.1, mr, hr]
  have hJf : (SyncNextIndex (markAll p0 l)).firstUsable = p0.firstUsable := by
    rw [(sync_fields _).2.2.2.1, mf]
  have hJt : (SyncNextIndex (markAll p0 l)).totalUsable = p0.totalUsable := by
    rw [(sync_fields _).2.2.2.2.1, mt]
  have hJmem : ∀ x ∈ l, ∃ i, i < (SyncNextIndex (markAll p0 l)).nextIndex ∧
      x = p0.firstUsable + i := by
    intro x hx
    obtain ⟨i, hi1, hi2⟩ := hrange x hx
    have hxa : x ∈ (markAll p0 l).allocated := markAll_mem l p0 x (Or.inl hx)
    by_cases hxs : x = (markAll p0 l).serverIP
    · have hms : (markAll p0 l).serverIP = p0.firstUsable := by
        rw [ms, hsrv, ← hf]
      have hnx := (sync_fields (markAll p0 l)).2.2.2.2.2
      exact ⟨0, by omega, by omega⟩
    · have hloop : ipIndexLoop x (markAll p0 l).totalUsable
          (markAll p0 l).firstUsable 0 = i := by
        rw [mf, mt, hi2]
        exact ipIndexLoop_finds i hi1 hfw
      have hgt2 := sync_nextIndex_gt (markAll p0 l) x hxa hxs
      rw [hloop] at hgt2
      exact ⟨i, hgt2, hi2⟩
  have main : ∀ (os : List PoolOp), (∀ op ∈ os, op = PoolOp.alloc) →
      ∀ q : IPPool, q.recycled = [] → q.firstUsable = p0.firstUsable →
      q.totalUsable = p0.totalUsable →
      (∀ x ∈ l, ∃ i, i < q.nextIndex ∧ x = p0.firstUsable + i) →
      (applyOps q os).recycled = [] ∧
      (applyOps q os).firstUsable = p0.firstUsable ∧
      (applyOps q os).totalUsable = p0.totalUsable ∧
      (∀ x ∈ l, ∃ i, i < (applyOps q os).nextIndex ∧
        x = p0.firstUsable + i) := by
    intro os
    induction os with
    | nil =>
      intro _ q h1 h2 h3 h4
      exact ⟨h1, h2, h3, h4⟩
    | cons op rest ih =>
      intro hos q h1 h2 h3 h4
      have hop : op = PoolOp.alloc := hos op (List.mem_cons_self _ _)
      subst hop
      have hrest : ∀ o ∈ rest, o = PoolOp.alloc :=
        fun o ho => hos o (List.mem_cons_of_mem _ ho)
      have hred : applyOps q (PoolOp.alloc :: rest) =
          applyOps (applyOp q PoolOp.alloc) rest := rfl
      rw [hred]
      by_cases hex : q.totalUsable ≤ q.nextIndex
      · have herr := alloc_exhausted h1 hex
        have hkeep : applyOp q PoolOp.alloc = q := by
          simp [applyOp, herr]
        rw [hkeep]
        exact ih hrest q h1 h2 h3 h4
      · have hlt : q.nextIndex < q.totalUsable := by omega
        have hcur := alloc_cursor h1 hlt
        have hkeep : applyOp q PoolOp.alloc =
            { q with nextIndex := q.nextIndex + 1,
                     allocated := mapInsert q.allocated
                       (increment^[q.nextIndex] q.firstUsable) } := by
          simp [applyOp, hcur]
        rw [hkeep]
        refine ih hrest { q with nextIndex := q.nextIndex + 1,
                                 allocated := mapInsert q.allocated
                                   (increment^[q.nextIndex] q.firstUsable) }
          h1 h2 h3 ?_
        intro x hx
        obtain ⟨i, hi1, hi2⟩ := h4 x hx
        exact ⟨i, show i < q.nextIndex + 1 by omega, hi2⟩
  obtain ⟨hq1, hq2, hq3, hq4⟩ :=
    main ops hops (SyncNextIndex (markAll p0 l)) hJrec hJf hJt hJmem
  rcases alloc_cases hstep with ⟨rest, hrec2, -⟩ | ⟨-, hlt, hipv, -⟩
  · rw [hq1] at hrec2
    cases hrec2
  · intro hin
    obtain ⟨i, hi1, hi2⟩ := hq4 ip hin
    rw [hq2] at hipv
    have hflt : p0.firstUsable < 2 ^ 32 := by omega
    rw [increment_iterate _ _ hflt] at hipv
    rw [Nat.mod_eq_of_lt (by omega)] at hipv
    omega

/-- C7 witness: marking `10.0.0.3` then `10.0.0.2` on a fresh
`10.0.0.0/29` pool and resyncing yields `10.0.0.4 = 167772164` on the next
allocation, distinct from both marked addresses. -/
theorem C7_witness :
    167772160 + 2 ^ (32 - 29) ≤ 2 ^ 32 ∧
    ([167772163, 167772162] : List Nat).Nodup ∧
    (167772164 : Nat) ∉ ([167772163, 167772162] : List Nat) := by
  have hrange : ∀ x ∈ ([167772163, 167772162] : List Nat),
      ∃ i, i < pool29.totalUsable ∧ x = pool29.firstUsable + i := by
    intro x hx
    rcases List.mem_cons.mp hx with rfl | hx'
    · exact ⟨2, by decide, by decide⟩
    rcases List.mem_cons.mp hx' with rfl | hx''
    · exact ⟨1, by decide, by decide⟩
    · cases hx''
  have hops : ∀ op ∈ ([] : List PoolOp), op = PoolOp.alloc := by
    intro op hop
    cases hop
  have h := C7_resync_avoids_marked
    (fun _ => CIDRInput.parsed true 167772160 29) "10.0.0.0/29"
    167772160 29 rfl (by decide) pool29 (by decide)
    [167772163, 167772162] (by decide) hrange [] hops
    167772164 pool29m1 (by decide)
  exact ⟨by decide, by decide, h⟩

/-- C8: a valid pool over a block of `N = 2^(32-ones)` total addresses has
`totalUsable = N - 2`, admits exactly `N - 3` member allocations with no
release (network, broadcast, and the hub slot are excluded), and the
allocate call after those fails with the pool-exhausted error. -/
theorem C8_pool_capacity
    (parse : String → CIDRInput) (cidr : String) (base ones : Nat)
    (hparse : parse cidr = .parsed true base ones)
    (hbase : base + 2 ^ (32 - ones) ≤ 2 ^ 32)
    (p0 : IPPool) (h0 : NewIPPool parse cidr = .ok p0) :
    p0.totalUsable = 2 ^ (32 - ones) - 2 ∧
    ∃ p', allocateN p0 (2 ^ (32 - ones) - 3) = .ok p' ∧
      ∃ e, AllocateNodeIP p' = .error e := by
  obtain ⟨hgt, hsrv, hf, ha, hr, hn, ht⟩ := newIPPool_ok hparse h0
  refine ⟨ht, ?_⟩
  obtain ⟨p', h1, h2, h3, h4⟩ :=
    allocateN_run (2 ^ (32 - ones) - 3) hr (by omega)
  refine ⟨p', h1, ⟨_, alloc_exhausted h2 (by omega)⟩⟩

/-! ### Claim C9: topology visibility -/

/-- C9: visibility rules of the generated documents.  The hub's document
is its identity section followed by exactly one `[Peer]` block per member
in member-list order, and a block carries a reachability hint only when
the member is peer-type.  A node's document is its header (identity plus
the always-present hub entry) followed by one block per element of
`nodeConfigPeerSources`: for a peer-type member these are exactly the
*other* peer-type members (never a route-type member), and for a
route-type member exactly the peer-type members (never another route-type
member). -/
theorem C9_topology_visibility (network : VirtualNetwork) (server : Server)
    (nodes : List Node) (m x : Node) :
    generateServerConfig server nodes =
      serverConfigHeader server ++ String.join (nodes.map serverPeerBlock) ∧
    (serverBlockHasEndpoint x = true → x.type = NodeTypePeer) ∧
    generateNodeConfig network server m nodes =
      nodeConfigHeader network server m ++
        String.join ((nodeConfigPeerSources m nodes).map nodePeerBlock) ∧
    (m.type = NodeTypePeer →
      (x ∈ nodeConfigPeerSources m nodes ↔
        x ∈ nodes ∧ x.id ≠ m.id ∧ x.type = NodeTypePeer)) ∧
    (m.type = NodeTypeRoute →
      (x ∈ nodeConfigPeerSources m nodes ↔
        x ∈ nodes ∧ x.type = NodeTypePeer)) := by
  refine ⟨rfl, ?_, rfl, ?_, ?_⟩
  · intro hx
    unfold serverBlockHasEndpoint at hx
    simp only [Bool.and_eq_true, decide_eq_true_eq] at hx
    exact hx.1
  · intro hp
    have hr : ¬ m.type = NodeTypeRoute := by
      rw [hp]
      decide
    unfold nodeConfigPeerSources
    rw [if_pos hp, if_neg hr]
    simp [List.mem_filter, and_assoc]
  · intro hro
    have hp : ¬ m.type = NodeTypePeer := by
      rw [hro]
      decide
    unfold nodeConfigPeerSources
    rw [if_neg hp, if_pos hro]
    simp [List.mem_filter]

/-- C9 witness: on the spec's example topology (hub with peers P1, P2 and
routes R1, R2): P1's document references exactly P2 besides the hub; R1's
document references exactly P1 and P2 and never R2; the hub's blocks carry
endpoint hints for P1 but not for R1. -/
theorem C9_witness :
    exP1.type = NodeTypePeer ∧ exR1.type = NodeTypeRoute ∧
    (exP2 ∈ nodeConfigPeerSources exP1 exNodes ↔
      exP2 ∈ exNodes ∧ exP2.id ≠ exP1.id ∧ exP2.type = NodeTypePeer) ∧
    (exR2 ∈ nodeConfigPeerSources exR1 exNodes ↔
      exR2 ∈ exNodes ∧ exR2.type = NodeTypePeer) ∧
    nodeConfigPeerSources exP1 exNodes = [exP2] ∧
    nodeConfigPeerSources exR1 exNodes = [exP1, exP2] ∧
    serverBlockHasEndpoint exP1 = true ∧
    serverBlockHasEndpoint exR1 = false := by
  refine ⟨rfl, rfl, ?_, ?_, by decide, by decide, by decide, by decide⟩
  · exact (C9_topology_visibility exNet exServer exNodes exP1 exP2).2.2.2.1 rfl
  · exact (C9_topology_visibility exNet exServer exNodes exR1 exR2).2.2.2.2 rfl

/-! ### Claim C10: hash-gated versioning -/

theorem latest_nextVer_fold (networkID : String)
    (bucket : List ConfigVersionRec) :
    ∀ (acc : Option ConfigVersionRec) (n : Nat),
      n = (match acc with | none => 1 | some l => l.version + 1) →
      bucket.foldl (nextVerFoldFn networkID) n =
        (match bucket.foldl (latestFoldFn networkID) acc with
         | none => 1
         | some l => l.version + 1) := by
  induction bucket with
  | nil =>
    intro acc n h
    simpa using h
  | cons c t ih =>
    intro acc n h
    rw [List.foldl_cons, List.foldl_cons]
    apply ih
    unfold nextVerFoldFn latestFoldFn
    by_cases hc : c.networkID = networkID
    · cases acc with
      | none =>
        subst h
        simp only [hc, true_and, if_pos]
        split <;> omega
      | some l =>
        subst h
        by_cases hv : c.version > l.version
        · have hge : c.version ≥ l.version + 1 := hv
          simp [hc, hge, hv]
        · have hge : ¬(c.version ≥ l.version + 1) := by omega
          simp [hc, hge, hv]
    · cases acc with
      | none => subst h; simp [hc]
      | some l => subst h; simp [hc]

theorem getLatest_ok {bucket : List ConfigVersionRec} {networkID : String}
    {L : ConfigVersionRec} :
    GetLatestConfigVersion bucket networkID = .ok L ↔
    bucket.foldl (latestFoldFn networkID) none = some L := by
  unfold GetLatestConfigVersion
  cases hf : bucket.foldl (latestFoldFn networkID) none <;> simp

theorem latestFold_append (networkID : String)
    (bucket : List ConfigVersionRec) (v : ConfigVersionRec)
    (acc : Option ConfigVersionRec) :
    (bucket ++ [v]).foldl (latestFoldFn networkID) acc =
      latestFoldFn networkID (bucket.foldl (latestFoldFn networkID) acc) v := by
  rw [List.foldl_append]
  rfl

/-- C10: after any save with the current state's hash, saving again with
the same hash returns the stored latest version unchanged and appends
nothing, while saving with any different hash (a state change that alters
the computed hash) appends exactly one record whose version number is one
greater than the previous latest. -/
theorem C10_save_version (bucket : List ConfigVersionRec)
    (networkID h newID1 newID2 newID3 h' : String) (hne : h' ≠ h) :
    ∃ L : ConfigVersionRec,
      GetLatestConfigVersion (SaveConfigVersion bucket networkID h newID1).2.2
        networkID = .ok L ∧
      L.contentHash = h ∧
      SaveConfigVersion (SaveConfigVersion bucket networkID h newID1).2.2
        networkID h newID2 =
        (L, false, (SaveConfigVersion bucket networkID h newID1).2.2) ∧
      SaveConfigVersion (SaveConfigVersion bucket networkID h newID1).2.2
        networkID h' newID3 =
        (⟨newID3, networkID, L.version + 1, h'⟩, true,
          (SaveConfigVersion bucket networkID h newID1).2.2 ++
            [⟨newID3, networkID, L.version + 1, h'⟩]) := by
  have unchanged_eq : ∀ (b : List ConfigVersionRec) (L : ConfigVersionRec)
      (hcur nI : String), GetLatestConfigVersion b networkID = .ok L →
      L.contentHash = hcur →
      SaveConfigVersion b networkID hcur nI = (L, false, b) := by
    intro b L hcur nI hg hh
    simp only [SaveConfigVersion, hg]
    rw [if_pos hh]
  have created_eq : ∀ (b : List ConfigVersionRec) (L : ConfigVersionRec)
      (hcur nI : String), GetLatestConfigVersion b networkID = .ok L →
      ¬(L.contentHash = hcur) →
      SaveConfigVersion b networkID hcur nI =
        (⟨nI, networkID, L.version + 1, hcur⟩, true,
          b ++ [⟨nI, networkID, L.version + 1, hcur⟩]) := by
    intro b L hcur nI hg hh
    have hfold : b.foldl (latestFoldFn networkID) none = some L :=
      getLatest_ok.mp hg
    have hnv : b.foldl (nextVerFoldFn networkID) 1 = L.version + 1 := by
      rw [latest_nextVer_fold networkID b none 1 rfl, hfold]
    simp only [SaveConfigVersion, hg]
    rw [if_neg hh]
    simp only [storageSaveConfigVersion, hnv]
  have step1 : ∃ L, GetLatestConfigVersion
      (SaveConfigVersion bucket networkID h newID1).2.2 networkID = .ok L ∧
      L.contentHash = h := by
    cases hg : GetLatestConfigVersion bucket networkID with
    | ok latest0 =>
      by_cases heq : latest0.contentHash = h
      · rw [unchanged_eq bucket latest0 h newID1 hg heq]
        exact ⟨latest0, hg, heq⟩
      · rw [created_eq bucket latest0 h newID1 hg heq]
        refine ⟨⟨newID1, networkID, latest0.version + 1, h⟩, ?_, rfl⟩
        apply getLatest_ok.mpr
        rw [latestFold_append, getLatest_ok.mp hg]
        unfold latestFoldFn
        rw [if_pos rfl]
        have hlt : latest0.version <
            (⟨newID1, networkID, latest0.version + 1, h⟩ :
              ConfigVersionRec).version := Nat.lt_succ_self _
        simp [hlt]
    | error e =>
      have hfold : bucket.foldl (latestFoldFn networkID) none = none := by
        unfold GetLatestConfigVersion at hg
        cases hf : bucket.foldl (latestFoldFn networkID) none with
        | none => rfl
        | some l =>
          rw [hf] at hg
          exact absurd hg (by simp)
      have hnv : bucket.foldl (nextVerFoldFn networkID) 1 = 1 := by
        rw [latest_nextVer_fold networkID bucket none 1 rfl, hfold]
      have hsave : SaveConfigVersion bucket networkID h newID1 =
          (⟨newID1, networkID, 1, h⟩, true,
            bucket ++ [⟨newID1, networkID, 1, h⟩]) := by
        simp only [SaveConfigVersion, hg]
        simp only [storageSaveConfigVersion, hnv]
      rw [hsave]
      refine ⟨⟨newID1, networkID, 1, h⟩, ?_, rfl⟩
      apply getLatest_ok.mpr
      rw [latestFold_append, hfold]
      unfold latestFoldFn
      rw [if_pos rfl]
  obtain ⟨L, hgl, hLh⟩ := step1
  refine ⟨L, hgl, hLh, unchanged_eq _ L h newID2 hgl hLh,
    created_eq _ L h' newID3 hgl ?_⟩
  rw [hLh]
  exact fun hc => hne hc.symm

/-- C10 witness: starting from an empty configs bucket for network `N`,
saving hash `h1`, then `h1` again (unchanged, version 1 returned, nothing
appended), then `h2` (one record appended with version 2). -/
theorem C10_witness :
    ("h2" : String) ≠ "h1" ∧
    (∃ L : ConfigVersionRec,
      GetLatestConfigVersion (SaveConfigVersion [] "N" "h1" "id1").2.2
        "N" = .ok L ∧
      L.contentHash = "h1" ∧
      SaveConfigVersion (SaveConfigVersion [] "N" "h1" "id1").2.2
        "N" "h1" "id2" =
        (L, false, (SaveConfigVersion [] "N" "h1" "id1").2.2) ∧
      SaveConfigVersion (SaveConfigVersion [] "N" "h1" "id1").2.2
        "N" "h2" "id3" =
        (⟨"id3", "N", L.version + 1, "h2"⟩, true,
          (SaveConfigVersion [] "N" "h1" "id1").2.2 ++
            [⟨"id3", "N", L.version + 1, "h2"⟩])) :=
  ⟨by decide, C10_save_version [] "N" "h1" "id1" "id2" "id3" "h2" (by decide)⟩

/-! ### Claim C1: hub deletion and the name index -/

/-- C1: after creating hub `s1` in network `N1` and deleting it, the
primary record is gone but the composite name-index entry `N1:s1` written
by CreateServer is still present, because DeleteServer deletes the
name-index key `serverName` (the bare name `s1`) rather than the composite
key; consequently re-creating a hub named `s1` in `N1` fails with a
duplicate-name error instead of succeeding. -/
theorem C1_delete_leaves_stale_name_index :
    CreateServer c1Store0 "N1" "s1" "pub.example.com" 51820 167772161
      "priv" "pubk" "ID1" = .ok (c1Srv, c1Store1) ∧
    DeleteServer c1Store1 "N1" = .ok c1Store2 ∧
    bucketGet c1Store2.servers "ID1" = none ∧
    bucketGet c1Store2.serversByName "N1:s1" = some "ID1" ∧
    CreateServer c1Store2 "N1" "s1" "pub.example.com" 51820 167772161
      "priv2" "pubk2" "ID2" = .error "server name s1 already exists" := by
  decide

/-! ### Claim C2: peer-address validation versus the type default -/

/-- C2: the Topology Manager's Create-member checks "peer type requires a
public address" before applying the default type, so a create with
unspecified type (`""`) and empty public address succeeds and stores a
member whose type is peer and whose public address is empty — violating
the invariant — while an explicit type=peer with empty public address
fails with the validation error and stores nothing. -/
theorem C2_default_type_skips_address_validation :
    CreateNode (fun _ => CIDRInput.malformed) (fun _ => false) c2State0
      "net1" "n1" "" 0 "" (some ("priv", "pub")) "nid1" =
      .ok (c2Node, c2State1) ∧
    c2Node.type = NodeTypePeer ∧
    c2Node.publicAddress = "" ∧
    bucketGet c2State1.storage.nodes "nid1" = some c2Node ∧
    CreateNode (fun _ => CIDRInput.malformed) (fun _ => false) c2State0
      "net1" "n2" "" 0 NodeTypePeer (some ("priv", "pub")) "nid2" =
      .error "peer type nodes require a public address" := by
  decide

set_option maxRecDepth 4000 in
/-- C8 witness: the `10.0.0.0/24` pool (256 total addresses) yields exactly
`256 - 3 = 253` member allocations before exhaustion. -/
theorem C8_witness :
    167772160 + 2 ^ (32 - 24) ≤ 2 ^ 32 ∧
    pool24.totalUsable = 254 ∧
    (∃ p', allocateN pool24 253 = .ok p' ∧
      ∃ e, AllocateNodeIP p' = .error e) := by
  have h := C8_pool_capacity
    (fun _ => CIDRInput.parsed true 167772160 24) "10.0.0.0/24"
    167772160 24 rfl (by decide) pool24 (by decide)
  have h253 : (2 ^ (32 - 24) - 3 : Nat) = 253 := by decide
  have h2 := h.2
  rw [h253] at h2
  refine ⟨by decide, ?_, h2⟩
  rw [h.1]
  decide

end Wedevctl
